import Mathlib

/-!
Verification of the LANControl network-management core against its
natural-language specification.

The development is a shallow embedding of the Python sources:

* app/utils.py     : hardware-address normalization (normalize_mac)
* app/wol.py       : magic-packet construction and wake-on-LAN sending
* app/port_scanner.py : device-type classification from open ports
* app/scanner.py   : network sweep, scan state, local-host entry
* app/scheduler.py and app/api.py : status-history reconciliation steps
* app/models.py    : the derived device status property

Machine-level effects (sockets, subprocesses, the database) are modelled
by explicit environment records supplying the outcome of each external
operation; every function of the embedding is a computable Lean function
translated clause by clause from the Python source.
-/

/-! ## Characters and hex digits (app/utils.py helpers) -/

/-- Membership in the character class of the Python regex [0-9A-Fa-f]
used by normalize_mac. -/
def isHexChar (c : Char) : Bool :=
  (('0' ≤ c && c ≤ '9') || ('A' ≤ c && c ≤ 'F') || ('a' ≤ c && c ≤ 'f'))

/-- Uppercase hexadecimal digit: the character class of a canonical
hardware-address byte pair. -/
def isUpperHexChar (c : Char) : Bool :=
  (('0' ≤ c && c ≤ '9') || ('A' ≤ c && c ≤ 'F'))

/-- Numeric value of one hexadecimal digit, as used by the Python
bytes.fromhex parser on the characters produced by normalize_mac. -/
def hexVal (c : Char) : Nat :=
  if '0' ≤ c ∧ c ≤ '9' then c.toNat - 48
  else if 'A' ≤ c ∧ c ≤ 'F' then c.toNat - 55
  else if 'a' ≤ c ∧ c ≤ 'f' then c.toNat - 87
  else 0

theorem toUpper_hexChar (c : Char) (h : isHexChar c = true) :
    isUpperHexChar (Char.toUpper c) = true ∧ Char.toUpper c ≠ ':' := by
  unfold isHexChar at h
  rw [Bool.or_eq_true, Bool.or_eq_true, Bool.and_eq_true, Bool.and_eq_true,
    Bool.and_eq_true] at h
  rcases h with (⟨h1, h2⟩ | ⟨h1, h2⟩) | ⟨h1, h2⟩
  · have hb1 : 48 ≤ c.toNat := by exact_mod_cast of_decide_eq_true h1
    have hb2 : c.toNat ≤ 57 := by exact_mod_cast of_decide_eq_true h2
    have hid : Char.toUpper c = c := by
      unfold Char.toUpper
      rw [if_neg]; omega
    rw [hid]
    refine ⟨?_, fun hc => by have := congrArg Char.toNat hc; revert this; simp; omega⟩
    unfold isUpperHexChar
    rw [Bool.or_eq_true]
    left
    rw [Bool.and_eq_true]
    exact ⟨h1, h2⟩
  · have hb1 : 65 ≤ c.toNat := by exact_mod_cast of_decide_eq_true h1
    have hb2 : c.toNat ≤ 70 := by exact_mod_cast of_decide_eq_true h2
    have hid : Char.toUpper c = c := by
      unfold Char.toUpper
      rw [if_neg]; omega
    rw [hid]
    refine ⟨?_, fun hc => by have := congrArg Char.toNat hc; revert this; simp; omega⟩
    unfold isUpperHexChar
    rw [Bool.or_eq_true]
    right
    rw [Bool.and_eq_true]
    exact ⟨h1, h2⟩
  · have hb1 : 97 ≤ c.toNat := by exact_mod_cast of_decide_eq_true h1
    have hb2 : c.toNat ≤ 102 := by exact_mod_cast of_decide_eq_true h2
    have hup : Char.toUpper c = Char.ofNat (c.toNat - 32) := by
      unfold Char.toUpper
      rw [if_pos]; omega
    rw [hup]
    have hm1 : 65 ≤ c.toNat - 32 := by omega
    have hm2 : c.toNat - 32 ≤ 70 := by omega
    set m := c.toNat - 32 with hm
    clear_value m
    interval_cases m <;> exact ⟨by decide, by decide⟩

/-! ## normalize_mac (app/utils.py lines 44 to 53) -/

/-- The hex-digit content of the input: models
re.sub applied with pattern [^0-9A-Fa-f] and empty replacement. -/
def hexClean (mac : String) : List Char :=
  mac.data.filter isHexChar

/-- Successive two-character slices, modelling the Python slices
mac_clean[i:i+2] for i in range(0, 12, 2); on an input of even length
this is exactly the list of those slices. -/
def chunk2 : List Char → List (List Char)
  | a :: b :: rest => [a, b] :: chunk2 rest
  | _ => []

/-- Separator-joined concatenation, modelling the str.join method. -/
def joinSep (sep : List Char) : List (List Char) → List Char
  | [] => []
  | [p] => p
  | p :: ps => p ++ sep ++ joinSep sep ps

/-- Embedding of normalize_mac from app/utils.py: strip every character
outside [0-9A-Fa-f], fail unless exactly 12 remain, else format as
colon-separated uppercased byte pairs. -/
def normalize_mac (mac : String) : Option String :=
  let mac_clean := hexClean mac
  if mac_clean.length ≠ 12 then none
  else some ⟨joinSep [':'] ((chunk2 mac_clean).map (List.map Char.toUpper))⟩

/-! ## create_magic_packet (app/wol.py lines 6 to 26) -/

/-- Value of one two-character hex pair, as bytes.fromhex reads it. -/
def pairByte : List Char → Nat
  | [a, b] => 16 * hexVal a + hexVal b
  | _ => 0

/-- Models bytes.fromhex on an even-length hexadecimal string: one byte
per two-character pair. -/
def fromHexPairs (l : List Char) : List Nat :=
  (chunk2 l).map pairByte

/-- Embedding of create_magic_packet from app/wol.py: normalize the
address (raising ValueError, modelled as Except.error, when that fails),
decode the colon-free hex string to 6 bytes, and emit six 0xFF bytes
followed by sixteen copies of the address bytes. -/
def create_magic_packet (mac_address : String) : Except String (List Nat) :=
  match normalize_mac mac_address with
  | none => .error ("Invalid MAC address: " ++ mac_address)
  | some normalized_mac =>
    let mac_bytes := fromHexPairs (normalized_mac.data.filter (fun c => c ≠ ':'))
    .ok (List.replicate 6 255 ++ (List.replicate 16 mac_bytes).flatten)

/-! ## Structural lemmas about the normalized form -/

theorem chunk2_length : ∀ l : List Char, (chunk2 l).length = l.length / 2
  | [] => by simp [chunk2]
  | [_] => by simp [chunk2]
  | _ :: _ :: t => by
    rw [chunk2]
    simp only [List.length_cons, chunk2_length t]
    omega

theorem chunk2_piece_length : ∀ (l : List Char), ∀ p ∈ chunk2 l, p.length = 2
  | [], p, hp => by simp [chunk2] at hp
  | [_], p, hp => by simp [chunk2] at hp
  | a :: b :: t, p, hp => by
    rw [chunk2, List.mem_cons] at hp
    rcases hp with h | h
    · rw [h]; rfl
    · exact chunk2_piece_length t p h

theorem chunk2_mem : ∀ (l : List Char), ∀ p ∈ chunk2 l, ∀ c ∈ p, c ∈ l
  | [], p, hp, _, _ => by simp [chunk2] at hp
  | [_], p, hp, _, _ => by simp [chunk2] at hp
  | a :: b :: t, p, hp, c, hc => by
    rw [chunk2, List.mem_cons] at hp
    rcases hp with h | h
    · subst h
      rcases hc with _ | ⟨_, _ | ⟨_, h⟩⟩
      · exact List.mem_cons_self _ _
      · exact List.mem_cons_of_mem _ (List.mem_cons_self _ _)
      · cases h
    · exact List.mem_cons_of_mem _ (List.mem_cons_of_mem _ (chunk2_mem t p h c hc))

theorem filter_joinSep (pieces : List (List Char))
    (h : ∀ p ∈ pieces, ∀ c ∈ p, c ≠ ':') :
    (joinSep [':'] pieces).filter (fun c => c ≠ ':') = pieces.flatten := by
  induction pieces with
  | nil => rfl
  | cons p ps ih =>
    have hp : p.filter (fun c => c ≠ ':') = p := by
      rw [List.filter_eq_self]
      intro c hc
      exact decide_eq_true (h p (List.mem_cons_self _ _) c hc)
    cases ps with
    | nil => simpa [joinSep] using hp
    | cons q qs =>
      have hrest : (joinSep [':'] (q :: qs)).filter (fun c => c ≠ ':')
          = (q :: qs).flatten :=
        ih (fun r hr c hc => h r (List.mem_cons_of_mem _ hr) c hc)
      simp only [joinSep, List.filter_append, hp, List.flatten_cons]
      rw [hrest]
      simp [List.flatten_cons]

theorem normalize_mac_pieces (mac nm : String)
    (h : normalize_mac mac = some nm) :
    ∃ pieces : List (List Char),
      nm.data = joinSep [':'] pieces ∧
      pieces.length = 6 ∧
      (∀ p ∈ pieces, p.length = 2) ∧
      (∀ p ∈ pieces, ∀ c ∈ p, isUpperHexChar c = true ∧ c ≠ ':') := by
  unfold normalize_mac at h
  by_cases hlen : (hexClean mac).length ≠ 12
  · simp [hlen] at h
  · push_neg at hlen
    rw [if_neg (by omega)] at h
    refine ⟨(chunk2 (hexClean mac)).map (List.map Char.toUpper), ?_, ?_, ?_, ?_⟩
    · have := Option.some.inj h
      rw [← this]
    · rw [List.length_map, chunk2_length, hlen]
    · intro p hp
      rw [List.mem_map] at hp
      obtain ⟨q, hq, hpq⟩ := hp
      rw [← hpq, List.length_map]
      exact chunk2_piece_length _ q hq
    · intro p hp c hc
      rw [List.mem_map] at hp
      obtain ⟨q, hq, hpq⟩ := hp
      rw [← hpq] at hc
      rw [List.mem_map] at hc
      obtain ⟨d, hd, hdc⟩ := hc
      have hdm : d ∈ hexClean mac := chunk2_mem _ q hq d hd
      have hdhex : isHexChar d = true := List.of_mem_filter hdm
      rw [← hdc]
      exact toUpper_hexChar d hdhex

theorem mac_bytes_length (mac nm : String)
    (h : normalize_mac mac = some nm) :
    (fromHexPairs (nm.data.filter (fun c => c ≠ ':'))).length = 6 := by
  obtain ⟨pieces, hdata, hlen, hplen, hchars⟩ := normalize_mac_pieces mac nm h
  have hfilter : nm.data.filter (fun c => c ≠ ':') = pieces.flatten := by
    rw [hdata]
    exact filter_joinSep pieces (fun p hp c hc => (hchars p hp c hc).2)
  have hflat : pieces.flatten.length = 12 := by
    rw [List.length_flatten]
    have : pieces.map List.length = List.replicate 6 2 := by
      rw [List.eq_replicate_iff]
      refine ⟨by rw [List.length_map, hlen], ?_⟩
      intro b hb
      rw [List.mem_map] at hb
      obtain ⟨p, hp, hpb⟩ := hb
      rw [← hpb]
      exact hplen p hp
    rw [this, List.sum_replicate]
    rfl
  unfold fromHexPairs
  rw [List.length_map, chunk2_length, hfilter, hflat]

/-- C1: for every hardware address that normalizes successfully,
create_magic_packet returns a 102-byte payload whose first 6 bytes are
all 0xFF and whose remaining 96 bytes are the 6-byte decoded hardware
address repeated 16 times in order. -/
theorem create_magic_packet_layout (mac nm : String)
    (h : normalize_mac mac = some nm) :
    ∃ packet mac_bytes,
      create_magic_packet mac = .ok packet ∧
      mac_bytes = fromHexPairs (nm.data.filter (fun c => c ≠ ':')) ∧
      mac_bytes.length = 6 ∧
      packet.length = 102 ∧
      packet.take 6 = List.replicate 6 255 ∧
      packet.drop 6 = (List.replicate 16 mac_bytes).flatten := by
  have hlen6 := mac_bytes_length mac nm h
  refine ⟨List.replicate 6 255 ++
      (List.replicate 16 (fromHexPairs (nm.data.filter (fun c => c ≠ ':')))).flatten,
    fromHexPairs (nm.data.filter (fun c => c ≠ ':')), ?_, rfl, hlen6, ?_, ?_, ?_⟩
  · unfold create_magic_packet
    rw [h]
  · rw [List.length_append, List.length_replicate, List.length_flatten]
    have : (List.replicate 16 (fromHexPairs (nm.data.filter (fun c => c ≠ ':')))).map
        List.length = List.replicate 16 6 := by
      rw [List.map_replicate, hlen6]
    rw [this, List.sum_replicate]
    rfl
  · exact List.take_left' (List.length_replicate 6 255)
  · exact List.drop_left' (List.length_replicate 6 255)

theorem create_magic_packet_layout_witness :
    normalize_mac "AA:BB:CC:DD:EE:FF" = some "AA:BB:CC:DD:EE:FF" ∧
    ∃ packet mac_bytes,
      create_magic_packet "AA:BB:CC:DD:EE:FF" = .ok packet ∧
      mac_bytes =
        fromHexPairs (("AA:BB:CC:DD:EE:FF" : String).data.filter (fun c => c ≠ ':')) ∧
      mac_bytes.length = 6 ∧
      packet.length = 102 ∧
      packet.take 6 = List.replicate 6 255 ∧
      packet.drop 6 = (List.replicate 16 mac_bytes).flatten :=
  ⟨by decide, create_magic_packet_layout "AA:BB:CC:DD:EE:FF" "AA:BB:CC:DD:EE:FF" (by decide)⟩

/-- C2: every input whose hex-digit content has length exactly 12 is
normalized to the canonical form, six colon-separated uppercase hex byte
pairs; every other input is rejected with none. -/
theorem normalize_mac_canonical (mac : String) :
    ((hexClean mac).length = 12 →
      ∃ s pieces, normalize_mac mac = some s ∧
        s.data = joinSep [':'] pieces ∧
        pieces.length = 6 ∧
        (∀ p ∈ pieces, p.length = 2 ∧ ∀ c ∈ p, isUpperHexChar c = true)) ∧
    ((hexClean mac).length ≠ 12 → normalize_mac mac = none) := by
  constructor
  · intro h12
    have hsome : normalize_mac mac =
        some ⟨joinSep [':'] ((chunk2 (hexClean mac)).map (List.map Char.toUpper))⟩ := by
      unfold normalize_mac
      rw [if_neg (by omega)]
    obtain ⟨pieces, hdata, hlen, hplen, hchars⟩ :=
      normalize_mac_pieces mac _ hsome
    exact ⟨_, pieces, hsome, hdata, hlen,
      fun p hp => ⟨hplen p hp, fun c hc => (hchars p hp c hc).1⟩⟩
  · intro hne
    unfold normalize_mac
    rw [if_pos hne]

theorem normalize_mac_canonical_witness :
    (hexClean "aa-bb-cc-dd-ee-ff").length = 12 ∧
    (∃ s pieces, normalize_mac "aa-bb-cc-dd-ee-ff" = some s ∧
      s.data = joinSep [':'] pieces ∧
      pieces.length = 6 ∧
      (∀ p ∈ pieces, p.length = 2 ∧ ∀ c ∈ p, isUpperHexChar c = true)) :=
  ⟨by decide, (normalize_mac_canonical "aa-bb-cc-dd-ee-ff").1 (by decide)⟩

/-- C9: normalize_mac depends only on the hex-digit content of its input,
so arbitrary interleaved non-hex garbage is discarded; it returns none
exactly when the hex-digit count differs from 12. -/
theorem normalize_mac_hex_content_only :
    (∀ s t : String, hexClean s = hexClean t → normalize_mac s = normalize_mac t) ∧
    (∀ s : String, normalize_mac s = none ↔ (hexClean s).length ≠ 12) ∧
    normalize_mac "x=z!AA--+BB**CC##DD..EE::FF" = some "AA:BB:CC:DD:EE:FF" := by
  refine ⟨?_, ?_, by decide⟩
  · intro s t h
    unfold normalize_mac
    rw [h]
  · intro s
    unfold normalize_mac
    by_cases h : (hexClean s).length ≠ 12
    · simp [h]
    · push_neg at h
      rw [if_neg (by omega)]
      simp [h]

theorem normalize_mac_hex_content_only_witness :
    hexClean "AABBCCDDEEFF" = hexClean "AA:BB:CC:DD:EE:FF" ∧
    normalize_mac "AABBCCDDEEFF" = normalize_mac "AA:BB:CC:DD:EE:FF" :=
  ⟨by decide, normalize_mac_hex_content_only.1 "AABBCCDDEEFF" "AA:BB:CC:DD:EE:FF" (by decide)⟩

/-! ## send_wol_packet and send_bulk_wol (app/wol.py lines 29 to 91)

The socket layer is modelled by an environment giving the outcome of each
operating-system call: some message means the call raises that exception,
none means it succeeds. -/

structure WolEnv where
  socket_err : Option String
  send_err : Nat → Option String
  close_err : Option String

structure WolResult where
  success : Bool
  message : String
deriving DecidableEq

/-- The try-block of send_wol_packet: build the magic packet, create the
broadcast socket, send to the requested port, send again to port 7
whenever the requested port is not 7, close the socket, and produce the
success message; the first exception aborts the rest of the block. -/
def send_wol_body (env : WolEnv) (mac_address : String) (port : Nat) :
    Except String String :=
  match create_magic_packet mac_address with
  | .error e => .error e
  | .ok _magic_packet =>
    match env.socket_err with
    | some e => .error e
    | none =>
      match env.send_err port with
      | some e => .error e
      | none =>
        match (if port ≠ 7 then env.send_err 7 else none) with
        | some e => .error e
        | none =>
          match env.close_err with
          | some e => .error e
          | none => .ok ("WOL packet sent to " ++ mac_address)

/-- Embedding of send_wol_packet: the whole body runs inside one
try-except, so any exception becomes a success=false result. -/
def send_wol_packet (env : WolEnv) (mac_address : String)
    (port : Nat := 9) : WolResult :=
  match send_wol_body env mac_address port with
  | .ok m => ⟨true, m⟩
  | .error e => ⟨false, "Error sending WOL packet: " ++ e⟩

/-- Python dict insertion: replace the value at an existing key, else
append the binding. -/
def dictInsert (d : List (String × WolResult)) (k : String) (v : WolResult) :
    List (String × WolResult) :=
  if d.any (fun p => p.1 = k) then
    d.map (fun p => if p.1 = k then (k, v) else p)
  else d ++ [(k, v)]

structure BulkResult where
  results : List (String × WolResult)
  total : Nat
  success_count : Nat
deriving DecidableEq

/-- Embedding of send_bulk_wol: send to each address in order, store the
per-address result in a dict, and report the total and the count of
successful entries. -/
def send_bulk_wol (env : WolEnv) (mac_addresses : List String) : BulkResult :=
  let results := mac_addresses.foldl
    (fun acc mac => dictInsert acc mac (send_wol_packet env mac)) []
  { results := results
    total := mac_addresses.length
    success_count := (results.filter (fun p => p.2.success)).length }

/-- Environment in which every socket operation succeeds. -/
def okWolEnv : WolEnv :=
  { socket_err := none, send_err := fun _ => none, close_err := none }

/-- Environment in which only the send on port 7 raises. -/
def port7FailEnv : WolEnv :=
  { socket_err := none
    send_err := fun p => if p = 7 then some "port 7 unreachable" else none
    close_err := none }

/-- The claim that a failure on the secondary compatibility port does not
fail the call is false: in app/wol.py both sends sit inside the same
try-except, so an exception from the port-7 send is caught by the same
handler and reported as success=false even though the address normalized
and the primary send succeeded. -/
theorem send_wol_secondary_failure_counterexample :
    normalize_mac "AA:BB:CC:DD:EE:FF" ≠ none ∧
    port7FailEnv.socket_err = none ∧
    port7FailEnv.send_err 9 = none ∧
    port7FailEnv.close_err = none ∧
    send_wol_packet port7FailEnv "AA:BB:CC:DD:EE:FF" 9 =
      ⟨false, "Error sending WOL packet: port 7 unreachable"⟩ := by
  refine ⟨by decide, rfl, rfl, rfl, by decide⟩

/-- C7 amended: send_wol_packet fails exactly when the address cannot be
normalized or any socket operation raises; since the secondary port-7
send runs inside the same try-except as the primary send, its failure
also fails the call. -/
theorem send_wol_failure_conditions (env : WolEnv) (mac : String) (port : Nat) :
    (send_wol_packet env mac port).success = false ↔
      (normalize_mac mac = none ∨ env.socket_err ≠ none ∨
       env.send_err port ≠ none ∨ (port ≠ 7 ∧ env.send_err 7 ≠ none) ∨
       env.close_err ≠ none) := by
  unfold send_wol_packet send_wol_body create_magic_packet
  by_cases hport : port = 7 <;>
    cases hn : normalize_mac mac <;>
    cases hs : env.socket_err <;>
    cases hp : env.send_err port <;>
    cases h7 : env.send_err 7 <;>
    cases hc : env.close_err <;>
    simp [hn, hs, hp, h7, hc, hport]

/-- C10: send_wol_packet is total at its boundary; every call returns a
record with a success flag and a message, and the ValueError raised by
create_magic_packet for an unnormalizable address is caught and turned
into a success=false result. -/
theorem send_wol_packet_total (env : WolEnv) (mac : String) (port : Nat) :
    (∃ b m, send_wol_packet env mac port = ⟨b, m⟩) ∧
    (normalize_mac mac = none →
      send_wol_packet env mac port =
        ⟨false, "Error sending WOL packet: " ++ ("Invalid MAC address: " ++ mac)⟩) := by
  constructor
  · exact ⟨_, _, rfl⟩
  · intro hn
    unfold send_wol_packet send_wol_body create_magic_packet
    rw [hn]

theorem send_wol_packet_total_witness :
    normalize_mac "not-a-mac" = none ∧
    send_wol_packet okWolEnv "not-a-mac" 9 =
      ⟨false, "Error sending WOL packet: " ++ ("Invalid MAC address: " ++ "not-a-mac")⟩ :=
  ⟨by decide, (send_wol_packet_total okWolEnv "not-a-mac" 9).2 (by decide)⟩

/-! ## Network sweep (app/scanner.py)

External effects are supplied by an environment: ping outcomes, the raw
hardware-address text found in the neighbor table, resolved host names,
the host list produced by parse_cidr (none models an invalid CIDR), the
local interface data, and the wall clock. The thread pool completes
futures in nondeterministic order; the sweep is modelled in submission
order, which is immaterial for the membership and duplication properties
proved below. An exception escaping the try-block of scan_network is
modelled by crash_after, the number of hosts processed before it is
raised; per-host exceptions are caught inside the loop and never escape. -/

structure NetEnv where
  ping : String → Bool
  arp_raw : String → Option String
  host_name : String → Option String
  cidr_hosts : Option (List String)
  local_ip : Option String
  local_mac_raw : Option String
  local_hostname : String
  crash_after : Option Nat
  now : Nat

structure DiscoveredHost where
  ip : String
  hostname : Option String
  mac : String
  last_seen : Nat
  is_local_host : Bool
deriving DecidableEq

/-- Embedding of get_mac_address_arp: the raw regex match from the
neighbor table, passed through normalize_mac. -/
def get_mac_address_arp (env : NetEnv) (ip : String) : Option String :=
  (env.arp_raw ip).bind normalize_mac

/-- Embedding of get_local_mac: the raw interface address, passed through
normalize_mac. -/
def get_local_mac (env : NetEnv) : Option String :=
  env.local_mac_raw.bind normalize_mac

/-- Embedding of scan_host: unreachable hosts and hosts with no
resolvable hardware address yield no entry. -/
def scan_host (env : NetEnv) (ip : String) : Option DiscoveredHost :=
  if ¬ env.ping ip then none
  else
    match get_mac_address_arp env ip with
    | none => none
    | some mac => some ⟨ip, env.host_name ip, mac, env.now, false⟩

/-- The concurrent per-host loop of scan_network: every future that
returns a device appends it to the result list. -/
def sweep (env : NetEnv) (hosts : List String) : List DiscoveredHost :=
  hosts.filterMap (scan_host env)

structure ScanState where
  in_progress : Bool
  last_scan_time : Option Nat
  last_scan_results : List DiscoveredHost
deriving DecidableEq

/-- Embedding of get_scan_status from app/scanner.py. -/
def get_scan_status (s : ScanState) : Bool × Option Nat × Nat :=
  (s.in_progress, s.last_scan_time, s.last_scan_results.length)

/-- The sweep results plus the synthetic local-host entry, appended only
when the local address is resolvable and no swept entry already carries
that address. -/
def add_local_host (env : NetEnv) (devices : List DiscoveredHost) :
    List DiscoveredHost :=
  match env.local_ip, get_local_mac env with
  | some lip, some lmac =>
    if devices.any (fun d => d.ip = lip) then devices
    else devices ++ [⟨lip, some env.local_hostname, lmac, env.now, true⟩]
  | _, _ => devices

/-- Embedding of scan_network: the triple is the state right after entry
(the flag is raised before the try-block), the returned device list, and
the state after the finally-block. An invalid CIDR returns early from
inside the try-block; an exception after crash_after processed hosts
leaves the partial device list and skips the recording of the run; both
still pass through the finally-block that clears the flag. Recording of
last_scan_time and last_scan_results happens only on normal completion. -/
def scan_network (env : NetEnv) (s0 : ScanState) :
    ScanState × List DiscoveredHost × ScanState :=
  let s1 : ScanState := { s0 with in_progress := true }
  match env.cidr_hosts with
  | none => (s1, [], { s1 with in_progress := false })
  | some hosts =>
    match env.crash_after with
    | some k =>
      let devices := sweep env (hosts.take k)
      (s1, devices, { s1 with in_progress := false })
    | none =>
      let devices := add_local_host env (sweep env hosts)
      (s1, devices,
        { in_progress := false
          last_scan_time := some env.now
          last_scan_results := devices })

/-- C4: scan_network raises the in-progress flag on entry and clears it
on every exit path, and records the last-run timestamp and result list
only on normal completion of the sweep. -/
theorem scan_network_state_discipline (env : NetEnv) (s0 : ScanState) :
    (scan_network env s0).1.in_progress = true ∧
    (get_scan_status (scan_network env s0).2.2).1 = false ∧
    ((env.cidr_hosts = none ∨ env.crash_after ≠ none) →
      (scan_network env s0).2.2.last_scan_time = s0.last_scan_time ∧
      (scan_network env s0).2.2.last_scan_results = s0.last_scan_results) ∧
    ((env.cidr_hosts ≠ none ∧ env.crash_after = none) →
      (scan_network env s0).2.2.last_scan_time = some env.now ∧
      (scan_network env s0).2.2.last_scan_results = (scan_network env s0).2.1) := by
  unfold scan_network get_scan_status
  cases hc : env.cidr_hosts with
  | none => simp
  | some hosts =>
    cases hk : env.crash_after with
    | none => simp
    | some k => simp

/-- A fully healthy environment over two hosts that share one hardware
address in the neighbor table, as happens with proxy-ARP or a multi-homed
device. -/
def dupMacEnv : NetEnv :=
  { ping := fun _ => true
    arp_raw := fun _ => some "aa:bb:cc:dd:ee:ff"
    host_name := fun _ => none
    cidr_hosts := some ["10.0.0.1", "10.0.0.2"]
    local_ip := none
    local_mac_raw := none
    local_hostname := "LANControl-Server"
    crash_after := none
    now := 0 }

def initialScanState : ScanState :=
  { in_progress := false, last_scan_time := none, last_scan_results := [] }

/-- The claim that one sweep never returns two entries with the same
hardware address is false: scan_network deduplicates only the synthetic
local-host entry, and only by IP address, so two swept addresses whose
neighbor-table lookups give the same hardware address both appear. -/
theorem scan_network_duplicate_mac_counterexample :
    ((scan_network dupMacEnv initialScanState).2.1.map DiscoveredHost.mac)
      = ["AA:BB:CC:DD:EE:FF", "AA:BB:CC:DD:EE:FF"] ∧
    ¬ ((scan_network dupMacEnv initialScanState).2.1.map DiscoveredHost.mac).Nodup := by
  refine ⟨by decide, by decide⟩

theorem scan_network_state_discipline_witness :
    (scan_network dupMacEnv initialScanState).1.in_progress = true ∧
    (get_scan_status (scan_network dupMacEnv initialScanState).2.2).1 = false ∧
    ((scan_network dupMacEnv initialScanState).2.2.last_scan_time = some dupMacEnv.now ∧
      (scan_network dupMacEnv initialScanState).2.2.last_scan_results =
        (scan_network dupMacEnv initialScanState).2.1) :=
  ⟨(scan_network_state_discipline dupMacEnv initialScanState).1,
   (scan_network_state_discipline dupMacEnv initialScanState).2.1,
   (scan_network_state_discipline dupMacEnv initialScanState).2.2.2 ⟨by decide, rfl⟩⟩

theorem scan_host_ip (env : NetEnv) (ip : String) (d : DiscoveredHost)
    (h : scan_host env ip = some d) : d.ip = ip := by
  unfold scan_host at h
  by_cases hp : env.ping ip
  · rw [if_neg (by simp [hp])] at h
    cases hm : get_mac_address_arp env ip with
    | none => rw [hm] at h; cases h
    | some mac =>
      rw [hm] at h
      cases h
      rfl
  · rw [if_pos (by simp [hp])] at h
    cases h

theorem sweep_ips_sublist (env : NetEnv) :
    ∀ hosts : List String, ((sweep env hosts).map DiscoveredHost.ip).Sublist hosts := by
  intro hosts
  induction hosts with
  | nil => simp [sweep]
  | cons h t ih =>
    unfold sweep at ih ⊢
    rw [List.filterMap_cons]
    cases hs : scan_host env h with
    | none => exact ih.cons h
    | some d =>
      rw [List.map_cons, scan_host_ip env h d hs]
      exact ih.cons₂ h

/-- C6 amended: one sweep never returns two entries with the same IP
address, and the synthetic local-host entry is deduplicated against the
swept entries by IP address before being appended; deduplication by
hardware address does not happen. -/
theorem scan_network_ip_dedup (env : NetEnv) (s0 : ScanState)
    (hosts : List String) (hc : env.cidr_hosts = some hosts)
    (hnd : hosts.Nodup) :
    (((scan_network env s0).2.1).map DiscoveredHost.ip).Nodup ∧
    (∀ lip, env.crash_after = none → env.local_ip = some lip →
      (sweep env hosts).any (fun d => d.ip = lip) = true →
      (scan_network env s0).2.1 = sweep env hosts) := by
  unfold scan_network
  rw [hc]
  cases hk : env.crash_after with
  | some k =>
    refine ⟨?_, fun lip hnone _ _ => by cases hnone⟩
    have hsub := sweep_ips_sublist env (hosts.take k)
    exact (hsub.trans (List.take_sublist k hosts)).nodup hnd
  | none =>
    constructor
    · show (((add_local_host env (sweep env hosts)).map DiscoveredHost.ip)).Nodup
      have hswept : ((sweep env hosts).map DiscoveredHost.ip).Nodup :=
        (sweep_ips_sublist env hosts).nodup hnd
      unfold add_local_host
      cases hl : env.local_ip with
      | none => exact hswept
      | some lip =>
        cases hm : get_local_mac env with
        | none => exact hswept
        | some lmac =>
          dsimp only
          by_cases hany : (sweep env hosts).any (fun d => d.ip = lip) = true
          · rw [if_pos hany]
            exact hswept
          · rw [if_neg hany]
            rw [List.map_append]
            rw [List.nodup_append]
            refine ⟨hswept, by simp, ?_⟩
            intro x hx hx2
            simp at hx2
            rw [List.mem_map] at hx
            obtain ⟨d, hd, hdip⟩ := hx
            apply hany
            rw [List.any_eq_true]
            exact ⟨d, hd, by rw [hx2] at hdip; simp [hdip]⟩
    · intro lip _ hl hany
      show add_local_host env (sweep env hosts) = sweep env hosts
      unfold add_local_host
      rw [hl]
      cases hm : get_local_mac env with
      | none => rfl
      | some lmac =>
        dsimp only
        rw [if_pos hany]

theorem scan_network_ip_dedup_witness :
    dupMacEnv.cidr_hosts = some ["10.0.0.1", "10.0.0.2"] ∧
    (["10.0.0.1", "10.0.0.2"] : List String).Nodup ∧
    ((((scan_network dupMacEnv initialScanState).2.1).map DiscoveredHost.ip).Nodup ∧
      (∀ lip, dupMacEnv.crash_after = none → dupMacEnv.local_ip = some lip →
        (sweep dupMacEnv ["10.0.0.1", "10.0.0.2"]).any (fun d => d.ip = lip) = true →
        (scan_network dupMacEnv initialScanState).2.1 =
          sweep dupMacEnv ["10.0.0.1", "10.0.0.2"])) :=
  ⟨rfl, by decide,
    scan_network_ip_dedup dupMacEnv initialScanState ["10.0.0.1", "10.0.0.2"] rfl (by decide)⟩

/-! ## Status reconciliation (app/models.py, app/scheduler.py, app/api.py)

Timestamps are seconds; the per-device status history is the list of
DeviceHistory status strings with the most recent record first. -/

/-- Embedding of the Device.status property from app/models.py: unknown
when never seen, online when seen within the 600-second window, else
offline. Python compares a signed difference with 600, and a last-seen
instant in the future also counts as online; truncated Nat subtraction
gives 0 there, matching that behaviour. -/
def device_status (now : Nat) (last_seen : Option Nat) : String :=
  match last_seen with
  | none => "unknown"
  | some t => if now - t < 600 then "online" else "offline"

/-- Embedding of the per-device body of check_device_statuses from
app/scheduler.py: a record is appended only when the latest recorded
status is absent or differs from the new one. -/
def check_status_step (hist : List String) (online : Bool) : List String :=
  let new_status := if online then "online" else "offline"
  match hist.head? with
  | none => new_status :: hist
  | some latest => if latest ≠ new_status then new_status :: hist else hist

/-- Embedding of the existing-device branch of scan_task from app/api.py:
update_device_from_scan first refreshes last_seen to the probe time, then
an online record is appended whenever the last_seen-derived status
property, read at processing time, is not online. -/
def scan_task_existing_step (scan_seen now : Nat) (hist : List String) :
    List String :=
  if device_status now (some scan_seen) ≠ "online" then "online" :: hist else hist

/-- The claim is false on the scan_task path of app/api.py: that path
guards on the last_seen-derived status property, not on the most recent
recorded status. When the database loop runs 600 seconds or more after
the host was probed, the property reads offline, so a second online
record is appended right next to an identical one. -/
theorem status_history_duplicate_counterexample :
    scan_task_existing_step 0 600 ["online"] = ["online", "online"] ∧
    ¬ List.Chain' (fun a b => a ≠ b) ["online", "online"] :=
  ⟨by decide, fun h => absurd rfl (List.chain'_cons.mp h).1⟩

/-- C5 amended: the scheduler reconciliation appends a record only when
the computed status differs from the most recent recorded one, preserving
the no-consecutive-duplicates invariant, and repeating it with an
unchanged status is idempotent; the api scan path instead guards on the
last_seen-derived status property and appends nothing for an existing
device only when it is processed within the 600-second online window of
the refreshed last_seen. -/
theorem status_history_no_consecutive_duplicates :
    (∀ (hist : List String) (online : Bool),
      List.Chain' (fun a b => a ≠ b) hist →
      List.Chain' (fun a b => a ≠ b) (check_status_step hist online)) ∧
    (∀ (hist : List String) (online : Bool),
      check_status_step (check_status_step hist online) online =
        check_status_step hist online) ∧
    (∀ (scan_seen now : Nat) (hist : List String), now < scan_seen + 600 →
      scan_task_existing_step scan_seen now hist = hist) := by
  refine ⟨?_, ?_, ?_⟩
  · intro hist online hchain
    cases hist with
    | nil => simp [check_status_step]
    | cons latest rest =>
      by_cases hne : latest ≠ (if online then "online" else "offline")
      · simp only [check_status_step, List.head?, if_pos hne]
        exact List.chain'_cons.mpr ⟨fun h => hne h.symm, hchain⟩
      · simp only [check_status_step, List.head?, if_neg hne]
        exact hchain
  · intro hist online
    cases hist with
    | nil => simp [check_status_step]
    | cons latest rest =>
      by_cases hne : latest ≠ (if online then "online" else "offline")
      · simp [check_status_step, if_pos hne]
      · simp only [check_status_step, List.head?, if_neg hne]
  · intro scan_seen now hist hwin
    unfold scan_task_existing_step device_status
    dsimp only
    rw [if_pos (show now - scan_seen < 600 by omega)]
    simp

theorem status_history_no_consecutive_duplicates_witness :
    List.Chain' (fun a b => a ≠ b) ["offline", "online"] ∧
    List.Chain' (fun a b => a ≠ b) (check_status_step ["offline", "online"] true) ∧
    ((100 : Nat) < 90 + 600) ∧
    scan_task_existing_step 90 100 ["online"] = ["online"] :=
  ⟨List.chain'_cons.mpr ⟨by decide, List.chain'_singleton "online"⟩,
    status_history_no_consecutive_duplicates.1 ["offline", "online"] true
      (List.chain'_cons.mpr ⟨by decide, List.chain'_singleton "online"⟩),
    by decide,
    status_history_no_consecutive_duplicates.2.2 90 100 ["online"] (by decide)⟩

theorem bulk_fold_eq (env : WolEnv) :
    ∀ (macs : List String) (acc : List (String × WolResult)),
      macs.Nodup → (∀ m ∈ macs, acc.any (fun p => p.1 = m) = false) →
      macs.foldl (fun acc mac => dictInsert acc mac (send_wol_packet env mac)) acc
        = acc ++ macs.map (fun m => (m, send_wol_packet env m))
  | [], acc, _, _ => by simp
  | m :: rest, acc, hnd, hacc => by
    rw [List.foldl_cons]
    have hins : dictInsert acc m (send_wol_packet env m)
        = acc ++ [(m, send_wol_packet env m)] := by
      unfold dictInsert
      rw [if_neg]
      rw [hacc m (List.mem_cons_self m rest)]
      simp
    rw [hins]
    have hrest : ∀ r ∈ rest,
        ((acc ++ [(m, send_wol_packet env m)]).any (fun p => p.1 = r)) = false := by
      intro r hr
      rw [List.any_append]
      rw [hacc r (List.mem_cons_of_mem m hr)]
      have hmr : m ≠ r := fun h => (List.nodup_cons.mp hnd).1 (h ▸ hr)
      simp [hmr]
    rw [bulk_fold_eq env rest (acc ++ [(m, send_wol_packet env m)])
      (List.nodup_cons.mp hnd).2 hrest]
    simp

theorem bulk_results_eq (env : WolEnv) (macs : List String) (hnd : macs.Nodup) :
    (send_bulk_wol env macs).results
      = macs.map (fun m => (m, send_wol_packet env m)) := by
  unfold send_bulk_wol
  rw [bulk_fold_eq env macs [] hnd (fun m _ => rfl)]
  rfl

theorem lookup_map_send (env : WolEnv) :
    ∀ macs : List String, macs.Nodup → ∀ mac ∈ macs,
      (macs.map (fun m => (m, send_wol_packet env m))).lookup mac
        = some (send_wol_packet env mac)
  | [], _, mac, hmac => by cases hmac
  | m :: rest, hnd, mac, hmac => by
    rw [List.map_cons]
    rcases List.mem_cons.mp hmac with h | h
    · subst h
      simp [List.lookup]
    · have hmr : (mac == m) = false := by
        have hne : mac ≠ m := fun he => (List.nodup_cons.mp hnd).1 (he ▸ h)
        simp [hne]
      simp only [List.lookup, hmr]
      exact lookup_map_send env rest (List.nodup_cons.mp hnd).2 mac h

/-- C8: for distinct addresses the bulk sender reports one entry per
address, each equal to the outcome of the individual send (so one failing
address never aborts or skips the others), a total equal to the number of
addresses, and a success count equal to the number of addresses whose
individual send succeeds; in the concrete three-address run with exactly
one malformed address the map has size 3 and the success count is 2. -/
theorem send_bulk_wol_per_address (env : WolEnv) (macs : List String)
    (hnd : macs.Nodup) :
    (send_bulk_wol env macs).results.length = macs.length ∧
    (send_bulk_wol env macs).total = macs.length ∧
    (∀ mac ∈ macs, (send_bulk_wol env macs).results.lookup mac
        = some (send_wol_packet env mac)) ∧
    (send_bulk_wol env macs).success_count
        = (macs.filter (fun m => (send_wol_packet env m).success)).length ∧
    (send_bulk_wol okWolEnv
        ["AA:BB:CC:DD:EE:FF", "junk", "11:22:33:44:55:66"]).results.length = 3 ∧
    (send_bulk_wol okWolEnv
        ["AA:BB:CC:DD:EE:FF", "junk", "11:22:33:44:55:66"]).success_count = 2 := by
  refine ⟨?_, rfl, ?_, ?_, by decide, by decide⟩
  · rw [bulk_results_eq env macs hnd, List.length_map]
  · intro mac hmac
    rw [bulk_results_eq env macs hnd]
    exact lookup_map_send env macs hnd mac hmac
  · show ((send_bulk_wol env macs).results.filter (fun p => p.2.success)).length = _
    rw [bulk_results_eq env macs hnd, List.filter_map]
    rw [List.length_map]
    rfl

theorem send_bulk_wol_per_address_witness :
    (["AA:BB:CC:DD:EE:FF", "junk", "11:22:33:44:55:66"] : List String).Nodup ∧
    (send_bulk_wol okWolEnv
      ["AA:BB:CC:DD:EE:FF", "junk", "11:22:33:44:55:66"]).results.length
      = (["AA:BB:CC:DD:EE:FF", "junk", "11:22:33:44:55:66"] : List String).length ∧
    (∀ mac ∈ (["AA:BB:CC:DD:EE:FF", "junk", "11:22:33:44:55:66"] : List String),
      (send_bulk_wol okWolEnv
        ["AA:BB:CC:DD:EE:FF", "junk", "11:22:33:44:55:66"]).results.lookup mac
        = some (send_wol_packet okWolEnv mac)) :=
  ⟨by decide,
    (send_bulk_wol_per_address okWolEnv
      ["AA:BB:CC:DD:EE:FF", "junk", "11:22:33:44:55:66"] (by decide)).1,
    (send_bulk_wol_per_address okWolEnv
      ["AA:BB:CC:DD:EE:FF", "junk", "11:22:33:44:55:66"] (by decide)).2.2.1⟩

/-! ## Device-type detection (app/port_scanner.py lines 41 to 53 and 155 to 196)

Scores are modelled in ℚ. The Python code compares IEEE-754 doubles, but
every score here is a fraction with numerator at most 5 and denominator
in the set 1, 2, 3, 5; distinct such rationals differ by at least 1/20,
far above double rounding error, and equal rationals round identically,
so the double comparisons agree exactly with the rational ones. The input
is the list of open port numbers; the source builds a set from them and
only tests membership, so duplicates and order are immaterial. -/

def DEVICE_TYPE_SIGNATURES : List (String × List Nat) :=
  [("router", [80, 443, 53]),
   ("nas", [80, 443, 445, 548, 22]),
   ("printer", [631, 9100, 80]),
   ("web_server", [80, 443]),
   ("database", [3306, 5432, 27017]),
   ("iot_device", [1883, 8883, 80]),
   ("media_server", [32400, 8096, 32469]),
   ("ssh_server", [22]),
   ("windows_pc", [445, 3389, 135]),
   ("raspberry_pi", [22, 80]),
   ("camera", [80, 554, 8000])]

/-- The size of the intersection of a signature with the open-port set. -/
def sig_matches (open_ports : List Nat) (sig : List Nat) : Nat :=
  (sig.filter (fun p => open_ports.contains p)).length

/-- Embedding of detect_device_type: fold over the signatures keeping the
best match, starting from the pair of unknown and score zero, replacing it
whenever a signature has a positive intersection and a strictly larger
match fraction; accept the best match at fraction one half or more, else
fall back to the single-port rules. -/
def detect_device_type (open_ports : List Nat) : String :=
  if open_ports.isEmpty then "unknown"
  else
    let best := DEVICE_TYPE_SIGNATURES.foldl
      (fun best sp =>
        let match_count := sig_matches open_ports sp.2
        if 0 < match_count ∧ (match_count : ℚ) / (sp.2.length : ℚ) > best.2 then
          (sp.1, (match_count : ℚ) / (sp.2.length : ℚ))
        else best)
      ("unknown", 0)
    if best.2 ≥ 1 / 2 then best.1
    else if open_ports.contains 22 ∧ ¬ open_ports.contains 80 then "ssh_server"
    else if open_ports.contains 80 ∨ open_ports.contains 443 then "web_server"
    else if open_ports.contains 445 then "windows_pc"
    else "unknown"

/-- Modelled from the spec wording of the claim: the first entry of the
list attaining the maximal score; later entries win only with a strictly
larger score. -/
def spec_first_max : List (String × ℚ) → String × ℚ
  | [] => ("unknown", 0)
  | [x] => x
  | x :: xs => if (spec_first_max xs).2 > x.2 then spec_first_max xs else x

/-- Modelled from the spec wording of the claim: every named signature
scored by the fraction of its ports present in the open-port set. -/
def spec_scores (open_ports : List Nat) : List (String × ℚ) :=
  DEVICE_TYPE_SIGNATURES.map
    (fun sp => (sp.1, (sig_matches open_ports sp.2 : ℚ) / (sp.2.length : ℚ)))

/-- Modelled from the spec wording of the claim: pick the first signature
reaching the maximal fraction, return it at fraction at least one half,
otherwise apply the single-port fallbacks. -/
def spec_classify (open_ports : List Nat) : String :=
  let pick := spec_first_max (spec_scores open_ports)
  if pick.2 ≥ 1 / 2 then pick.1
  else if open_ports.contains 22 ∧ ¬ open_ports.contains 80 then "ssh_server"
  else if open_ports.contains 80 ∨ open_ports.contains 443 then "web_server"
  else if open_ports.contains 445 then "windows_pc"
  else "unknown"

theorem spec_first_max_cons (x : String × ℚ) (xs : List (String × ℚ))
    (hx : 0 ≤ x.2) :
    spec_first_max (x :: xs)
      = if (spec_first_max xs).2 > x.2 then spec_first_max xs else x := by
  cases xs with
  | nil =>
    have h0 : (spec_first_max ([] : List (String × ℚ))).2 = 0 := rfl
    rw [show spec_first_max [x] = x from rfl, h0, if_neg (not_lt.mpr hx)]
  | cons y ys => rfl

theorem foldl_best_eq : ∀ (l : List (String × ℚ)) (b : String × ℚ),
    0 ≤ b.2 → (∀ x ∈ l, 0 ≤ x.2) →
    l.foldl (fun best a => if 0 < a.2 ∧ a.2 > best.2 then a else best) b
      = if (spec_first_max l).2 > b.2 then spec_first_max l else b
  | [], b, hb, _ => by
    have h0 : (spec_first_max ([] : List (String × ℚ))).2 = 0 := rfl
    rw [List.foldl_nil, if_neg (by rw [h0]; exact not_lt.mpr hb)]
  | a :: t, b, hb, hl => by
    rw [List.foldl_cons]
    have ha : 0 ≤ a.2 := hl a (List.mem_cons_self a t)
    have ht : ∀ x ∈ t, 0 ≤ x.2 := fun x hx => hl x (List.mem_cons_of_mem a hx)
    by_cases hcond : 0 < a.2 ∧ a.2 > b.2
    · rw [if_pos hcond]
      rw [foldl_best_eq t a ha ht]
      rw [spec_first_max_cons a t ha]
      by_cases hf : (spec_first_max t).2 > a.2
      · rw [if_pos hf, if_pos (lt_trans hcond.2 hf)]
      · rw [if_neg hf, if_pos hcond.2]
    · rw [if_neg hcond]
      rw [foldl_best_eq t b hb ht]
      rw [spec_first_max_cons a t ha]
      have hab : a.2 ≤ b.2 := by
        rcases not_and_or.mp hcond with h | h
        · push_neg at h; linarith
        · push_neg at h; exact h
      by_cases hf : (spec_first_max t).2 > a.2
      · rw [if_pos hf]
      · rw [if_neg hf]
        have hfb : ¬ (spec_first_max t).2 > b.2 := by
          push_neg at hf ⊢
          linarith
        rw [if_neg hfb, if_neg (not_lt.mpr hab)]

theorem spec_scores_nonneg (open_ports : List Nat) :
    ∀ x ∈ spec_scores open_ports, 0 ≤ x.2 := by
  intro x hx
  rw [spec_scores, List.mem_map] at hx
  obtain ⟨sp, _, hsp⟩ := hx
  rw [← hsp]
  exact div_nonneg (Nat.cast_nonneg _) (Nat.cast_nonneg _)

theorem detect_fold_eq (ports : List Nat) :
    DEVICE_TYPE_SIGNATURES.foldl
      (fun best sp =>
        if 0 < sig_matches ports sp.2 ∧
            (sig_matches ports sp.2 : ℚ) / (sp.2.length : ℚ) > best.2 then
          (sp.1, (sig_matches ports sp.2 : ℚ) / (sp.2.length : ℚ))
        else best)
      ("unknown", 0)
    = (spec_scores ports).foldl
        (fun best a => if 0 < a.2 ∧ a.2 > best.2 then a else best)
        ("unknown", 0) := by
  rw [spec_scores, List.foldl_map]
  congr 1
  funext best sp
  dsimp only
  refine if_congr (and_congr ?_ Iff.rfl) rfl rfl
  constructor
  · intro hm
    have hlen : 0 < sp.2.length := by
      rcases Nat.eq_zero_or_pos sp.2.length with h0 | h
      · exfalso
        have : sig_matches ports sp.2 = 0 := by
          have hle := List.length_filter_le (fun p => ports.contains p) sp.2
          unfold sig_matches
          omega
        omega
      · exact h
    exact div_pos (by exact_mod_cast hm) (by exact_mod_cast hlen)
  · intro hs
    rcases Nat.eq_zero_or_pos (sig_matches ports sp.2) with h0 | h
    · exfalso
      rw [h0] at hs
      norm_num at hs
    · exact h

/-- C3: detect_device_type implements the classification rule stated in
the specification, namely score every signature by the fraction of its
ports that are open, pick the first signature attaining the maximal
fraction, accept it at one half or more, otherwise fall back to the
single-port rules; in particular open ports 80, 443, 53 classify as
router and an open port 22 alone classifies as ssh_server. -/
theorem detect_device_type_matches_spec :
    (∀ open_ports : List Nat,
      detect_device_type open_ports = spec_classify open_ports) ∧
    detect_device_type [80, 443, 53] = "router" ∧
    detect_device_type [22] = "ssh_server" := by
  refine ⟨?_, ?_, ?_⟩
  · intro ports
    cases ports with
    | nil =>
      norm_num [detect_device_type, spec_classify, spec_scores, spec_first_max,
        DEVICE_TYPE_SIGNATURES, sig_matches]
    | cons p ps =>
      dsimp only [detect_device_type, spec_classify]
      rw [if_neg (by simp)]
      rw [detect_fold_eq (p :: ps)]
      rw [foldl_best_eq (spec_scores (p :: ps)) ("unknown", 0) le_rfl
        (spec_scores_nonneg (p :: ps))]
      set pick := spec_first_max (spec_scores (p :: ps)) with hpickdef
      by_cases h2 : pick.2 ≥ 1 / 2
      · have hgt : pick.2 > 0 := lt_of_lt_of_le (by norm_num) h2
        rw [if_pos hgt]
      · by_cases hgt : pick.2 > 0
        · rw [if_pos hgt]
        · rw [if_neg hgt]
          have hz : ¬ (("unknown", (0 : ℚ)) : String × ℚ).2 ≥ 1 / 2 := by norm_num
          rw [if_neg hz, if_neg h2]
  · norm_num [detect_device_type, DEVICE_TYPE_SIGNATURES, sig_matches, List.foldl]
  · norm_num [detect_device_type, DEVICE_TYPE_SIGNATURES, sig_matches, List.foldl]
